import Mathlib

/-!
Shallow embedding of `src/analysis.py` (rental-listings analysis).

Modelling conventions:
* Python `float` values (prices, bedroom counts, …) are modelled as `ℚ`;
  Python `int` fields as `ℤ`.
* Python calls that can raise (`statistics.mean` on an empty list) are
  modelled with `Option`: `none` is the raised error.
* Python's stable sorts (`sorted(...)`, also with `reverse=True` via a
  reversed key order) are modelled by Mathlib's `List.insertionSort`,
  which is a stable sort for the given total preorder.
* Python list slicing `l[:k]` (including negative `k`) is modelled by
  `pySliceTo`.
-/

namespace Rental

/-- One rental listing, mirroring the `RentalRecord` dataclass
(`src/analysis.py`, lines 14-26). -/
structure RentalRecord where
  id : ℤ
  price : ℚ
  bedrooms : ℚ
  bathrooms : ℚ
  size : ℤ
  minutes_to_subway : ℤ
  building_age : ℤ
  has_washer : Bool
  has_elevator : Bool
  has_dishwasher : Bool
  has_gym : Bool
deriving DecidableEq, Repr

/-- Derived attribute `price_per_square_foot` (lines 28-30):
`self.price / self.size if self.size else 0.0`.  Python truthiness of an
int is `size ≠ 0`. -/
def price_per_square_foot (r : RentalRecord) : ℚ :=
  if r.size ≠ 0 then r.price / (r.size : ℚ) else 0

/-- Python `str.strip()` on the characters of a string: drop whitespace
from the front, then from the back (modelled with `Char.isWhitespace`). -/
def pyStrip (s : String) : String :=
  String.mk ((((s.data.dropWhile Char.isWhitespace).reverse).dropWhile
    Char.isWhitespace).reverse)

/-- `_parse_bool` (lines 33-34): `value.strip() == "1"`. -/
def _parse_bool (value : String) : Bool :=
  pyStrip value == "1"

/-- `statistics.mean`: raises (here: `none`) on an empty list, otherwise
the arithmetic mean. -/
def pyMean (values : List ℚ) : Option ℚ :=
  if values = [] then none else some (values.sum / (values.length : ℚ))

/-- Python's ascending `sorted` on rationals: a stable sort for `≤`. -/
def pySortAsc (values : List ℚ) : List ℚ :=
  values.insertionSort (· ≤ ·)

/-- Python slice `l[a:b]` for nonnegative bounds. -/
def pySliceRange (l : List ℚ) (a b : ℕ) : List ℚ :=
  (l.drop a).take (b - a)

/-- `_median` (lines 159-167).  The even branch calls
`mean(ordered[midpoint - 1 : midpoint + 1])`; that slice always has two
elements there, so the `getD 0` default for the `none` case is never
used. -/
def _median (values : List ℚ) : ℚ :=
  if values = [] then 0
  else
    let ordered := pySortAsc values
    let length := ordered.length
    let midpoint := length / 2
    if length % 2 = 1 then ordered.getD midpoint 0
    else (pyMean (pySliceRange ordered (midpoint - 1) (midpoint + 1))).getD 0

/-- The dictionary produced by `summarize_price`. -/
structure SummaryStats where
  count : ℕ
  average_price : ℚ
  median_price : ℚ
  average_size : ℚ
  average_price_per_sqft : ℚ
deriving DecidableEq, Repr

/-- `summarize_price` (lines 63-74).  `mean` raises on an empty list, so
the whole call fails (`none`) exactly when `records` is empty. -/
def summarize_price (records : List RentalRecord) : Option SummaryStats := do
  let prices := records.map (fun r => r.price)
  let sizes := records.map (fun r => (r.size : ℚ))
  let price_per_sqft := records.map price_per_square_foot
  let average_price ← pyMean prices
  let average_size ← pyMean sizes
  let average_price_per_sqft ← pyMean price_per_sqft
  pure
    { count := prices.length
      average_price := average_price
      median_price := _median prices
      average_size := average_size
      average_price_per_sqft := average_price_per_sqft }

/-- `dict.setdefault(k, []).append(v)` on an insertion-ordered
association list: append `v` to the entry of `k`, creating the entry at
the end if absent. -/
def setdefaultAppend (m : List (ℚ × List ℚ)) (k : ℚ) (v : ℚ) :
    List (ℚ × List ℚ) :=
  match m with
  | [] => [(k, [v])]
  | (k', vs) :: rest =>
      if k' = k then (k', vs ++ [v]) :: rest
      else (k', vs) :: setdefaultAppend rest k v

/-- The `grouped` dict of `average_price_by_bedrooms` (lines 78-80):
prices grouped by exact bedroom count, in insertion order. -/
def grouped (records : List RentalRecord) : List (ℚ × List ℚ) :=
  records.foldl (fun m r => setdefaultAppend m r.bedrooms r.price) []

/-- Ordering of `(key, value)` pairs by key.  Python's
`sorted(grouped.items())` compares tuples lexicographically; the keys of
a dict are pairwise distinct, so comparing keys alone is equivalent. -/
def fstLe {β : Type} (p q : ℚ × β) : Prop := p.1 ≤ q.1

instance {β : Type} : DecidableRel (@fstLe β) :=
  fun p q => inferInstanceAs (Decidable (p.1 ≤ q.1))

instance {β : Type} : IsTotal (ℚ × β) fstLe :=
  ⟨fun p q => le_total p.1 q.1⟩

instance {β : Type} : IsTrans (ℚ × β) fstLe :=
  ⟨fun _ _ _ h1 h2 => le_trans h1 h2⟩

/-- `average_price_by_bedrooms` (lines 77-81), as the ordered list of
`(bedrooms, mean price)` pairs of the returned dict.  Every group is
nonempty, so `pyMean` never returns `none` and the `getD 0` default is
never used. -/
def average_price_by_bedrooms (records : List RentalRecord) :
    List (ℚ × ℚ) :=
  ((grouped records).insertionSort fstLe).map
    (fun p => (p.1, (pyMean p.2).getD 0))

/-- Descending price order on records: `sorted(records, key=price,
reverse=True)` sorts so that earlier records have greater-or-equal
price. -/
def priceGe (a b : RentalRecord) : Prop := b.price ≤ a.price

instance : DecidableRel priceGe :=
  fun a b => inferInstanceAs (Decidable (b.price ≤ a.price))

instance : IsTotal RentalRecord priceGe :=
  ⟨fun a b => le_total b.price a.price⟩

instance : IsTrans RentalRecord priceGe :=
  ⟨fun _ _ _ h1 h2 => le_trans h2 h1⟩

/-- Descending order on rationals (for sorted price lists). -/
def qGe (a b : ℚ) : Prop := b ≤ a

instance : DecidableRel qGe :=
  fun a b => inferInstanceAs (Decidable (b ≤ a))

instance : IsTotal ℚ qGe := ⟨fun a b => le_total b a⟩

instance : IsTrans ℚ qGe := ⟨fun _ _ _ h1 h2 => le_trans h2 h1⟩

/-- Python slice `l[:k]`: for `k ≥ 0` the first `min k (length l)`
elements; for `k < 0` everything but the last `|k|` elements. -/
def pySliceTo {α : Type} (k : ℤ) (l : List α) : List α :=
  if k < 0 then l.take (l.length - k.natAbs) else l.take k.toNat

/-- `top_listings` (lines 84-85):
`sorted(records, key=lambda r: r.price, reverse=True)[:limit]`. -/
def top_listings (records : List RentalRecord) (limit : ℤ) :
    List RentalRecord :=
  pySliceTo limit (records.insertionSort priceGe)

/-- Modelled from the spec: the `k` largest values of a list, i.e. the
first `k` entries of the list stably sorted in descending order. -/
def kLargest (values : List ℚ) (k : ℕ) : List ℚ :=
  (values.insertionSort qGe).take k

/-! ### Reporter (`format_report`, lines 88-156)

Each template string of the per-locale table is modelled as the list of
its literal text pieces together with the list of format specifications
of its interpolation slots (`pieces.length = specs.length + 1`).
Numbers themselves are rationals; the decimal renderings below are the
idealised (exact-arithmetic) counterparts of CPython's float
formatting. -/

/-- A format specification of one interpolation slot. -/
inductive NumSpec
  /-- `{x}` where `x` is an integer (count, id, size): `str(int)`. -/
  | asInt
  /-- `{x}` where `x` is a float (bedrooms, bathrooms): `str(float)`. -/
  | asFloat
  /-- `{x:,.0f}`: rounded to a whole number, thousands separators. -/
  | comma0
  /-- `{x:.2f}`: fixed two decimal places. -/
  | fixed2
deriving DecidableEq, Repr

/-- Round half to even, as Python's float formatting does. -/
def roundHalfEven (q : ℚ) : ℤ :=
  let f := ⌊q⌋
  let frac := q - (f : ℚ)
  if frac < 1/2 then f
  else if (1:ℚ)/2 < frac then f + 1
  else if f % 2 = 0 then f else f + 1

set_option linter.unusedVariables false in
/-- Insert a comma after every three digits, working on the reversed
digit list. -/
def commaChunks (ds : List Char) : List Char :=
  if hds : ds.length ≤ 3 then ds
  else ds.take 3 ++ ',' :: commaChunks (ds.drop 3)
termination_by ds.length
decreasing_by simp only [List.length_drop]; exact Nat.sub_lt_self (by omega) (by omega)

/-- Render an integer with thousands separators. -/
def commaInt (n : ℤ) : String :=
  (if n < 0 then "-" else "") ++
    String.mk ((commaChunks (toString n.natAbs).data.reverse).reverse)

/-- `{x:,.0f}`. -/
def fmtComma0 (q : ℚ) : String := commaInt (roundHalfEven q)

/-- Two decimal digits, left-padded with a zero. -/
def twoDigits (m : ℕ) : String :=
  (if m < 10 then "0" else "") ++ toString m

/-- `{x:.2f}`. -/
def fmtFixed2 (q : ℚ) : String :=
  let n := roundHalfEven (q * 100)
  (if n < 0 then "-" else "") ++
    toString (n.natAbs / 100) ++ "." ++ twoDigits (n.natAbs % 100)

/-- `str(float)` for the exact rationals of this model (idealising
CPython's shortest-round-trip float repr). -/
def fmtFloatRepr (q : ℚ) : String :=
  if q.den = 1 then toString q.num ++ ".0" else toString q

/-- Render one slot value under a format specification. -/
def fmtNum : NumSpec → ℚ → String
  | NumSpec.asInt, q => toString q.num
  | NumSpec.asFloat, q => fmtFloatRepr q
  | NumSpec.comma0, q => fmtComma0 q
  | NumSpec.fixed2, q => fmtFixed2 q

/-- One template string: literal pieces around interpolation slots. -/
structure Template where
  pieces : List String
  specs : List NumSpec
deriving DecidableEq, Repr

/-- Interleave literal pieces with rendered slot values. -/
def weave : List String → List String → String
  | [], _ => ""
  | p :: ps, [] => p ++ weave ps []
  | p :: ps, v :: vs => p ++ v ++ weave ps vs

/-- The formatted slot values a template interpolates, in order. -/
def templateNums (t : Template) (vals : List ℚ) : List String :=
  List.zipWith fmtNum t.specs vals

/-- Instantiate a template (Python `str.format`). -/
def renderTemplate (t : Template) (vals : List ℚ) : String :=
  weave t.pieces (templateNums t vals)

/-- One locale's entry of the `strings` table (lines 93-124). -/
structure LocaleStrings where
  title : String
  count_t : Template
  avg_price_t : Template
  median_price_t : Template
  avg_size_t : Template
  avg_psf_t : Template
  by_beds : String
  by_beds_line_t : Template
  top_title : String
  top_line_t : Template
deriving DecidableEq, Repr

/-- The `"en"` entry of the `strings` table (lines 94-108). -/
def enStrings : LocaleStrings where
  title := "Rental market summary"
  count_t := ⟨["Listings analyzed: ", ""], [NumSpec.asInt]⟩
  avg_price_t := ⟨["Average monthly rent: $", ""], [NumSpec.comma0]⟩
  median_price_t := ⟨["Median monthly rent: $", ""], [NumSpec.comma0]⟩
  avg_size_t := ⟨["Average size: ", " sqft"], [NumSpec.comma0]⟩
  avg_psf_t := ⟨["Average price per sqft: $", ""], [NumSpec.fixed2]⟩
  by_beds := "Average price by bedroom count:"
  by_beds_line_t :=
    ⟨["  ", " BR: $", ""], [NumSpec.asFloat, NumSpec.comma0]⟩
  top_title := "Top listings by price:"
  top_line_t :=
    ⟨["  ID ", ": $", " | ", " BR / ", " BA | ", " sqft | $", "/sqft"],
     [NumSpec.asInt, NumSpec.comma0, NumSpec.asFloat, NumSpec.asFloat,
      NumSpec.asInt, NumSpec.fixed2]⟩

/-- The `"tr"` entry of the `strings` table (lines 109-123). -/
def trStrings : LocaleStrings where
  title := "Kira piyasası özeti"
  count_t := ⟨["İncelenen ilan sayısı: ", ""], [NumSpec.asInt]⟩
  avg_price_t := ⟨["Ortalama aylık kira: $", ""], [NumSpec.comma0]⟩
  median_price_t := ⟨["Medyan aylık kira: $", ""], [NumSpec.comma0]⟩
  avg_size_t := ⟨["Ortalama büyüklük: ", " ft²"], [NumSpec.comma0]⟩
  avg_psf_t :=
    ⟨["Metrekare başına ortalama fiyat: $", ""], [NumSpec.fixed2]⟩
  by_beds := "Oda sayısına göre ortalama kira:"
  by_beds_line_t :=
    ⟨["  ", " oda: $", ""], [NumSpec.asFloat, NumSpec.comma0]⟩
  top_title := "Fiyata göre en pahalı ilanlar:"
  top_line_t :=
    ⟨["  ID ", ": $", " | ", " oda / ", " banyo | ", " ft² | $", "/ft²"],
     [NumSpec.asInt, NumSpec.comma0, NumSpec.asFloat, NumSpec.asFloat,
      NumSpec.asInt, NumSpec.fixed2]⟩

/-- The `strings` table keyed by language code. -/
def localeTable : List (String × LocaleStrings) :=
  [("en", enStrings), ("tr", trStrings)]

/-- `strings.get(language, strings["en"])` (line 126). -/
def lookupLocale (language : String) : LocaleStrings :=
  (localeTable.lookup language).getD enStrings

/-- The language-independent data `format_report` computes up front
(lines 89-91) before any locale lookup. -/
structure ReportData where
  summary : SummaryStats
  averages : List (ℚ × ℚ)
  top : List RentalRecord
deriving DecidableEq, Repr

/-- Lines 89-91 of `format_report`: `summarize_price` may raise, which
aborts the whole report. -/
def reportData (records : List RentalRecord) (top_limit : ℤ) :
    Option ReportData := do
  let summary ← summarize_price records
  pure
    { summary := summary
      averages := average_price_by_bedrooms records
      top := top_listings records top_limit }

/-- The values interpolated into the top-listings line of a record. -/
def topLineVals (r : RentalRecord) : List ℚ :=
  [(r.id : ℚ), r.price, r.bedrooms, r.bathrooms, (r.size : ℚ),
   price_per_square_foot r]

/-- Lines 128-156 of `format_report`: build the report lines from the
chosen locale's templates and the precomputed data, then join them. -/
def renderWith (text : LocaleStrings) (d : ReportData) : String :=
  let lines :=
    [text.title,
     String.mk (List.replicate text.title.length '='),
     renderTemplate text.count_t [(d.summary.count : ℚ)],
     renderTemplate text.avg_price_t [d.summary.average_price],
     renderTemplate text.median_price_t [d.summary.median_price],
     renderTemplate text.avg_size_t [d.summary.average_size],
     renderTemplate text.avg_psf_t [d.summary.average_price_per_sqft],
     "",
     text.by_beds]
    ++ d.averages.map (fun p => renderTemplate text.by_beds_line_t [p.1, p.2])
    ++ ["", text.top_title]
    ++ d.top.map (fun r => renderTemplate text.top_line_t (topLineVals r))
  String.intercalate "\n" lines

/-- `format_report` (lines 88-156): compute the data, choose the locale,
render. -/
def format_report (records : List RentalRecord) (language : String)
    (top_limit : ℤ) : Option String :=
  (reportData records top_limit).map (renderWith (lookupLocale language))

/-- All formatted numeric strings a locale's report interpolates, in
report order, computed with that locale's own format specifications. -/
def numericStringsWith (text : LocaleStrings) (d : ReportData) :
    List String :=
  templateNums text.count_t [(d.summary.count : ℚ)]
    ++ templateNums text.avg_price_t [d.summary.average_price]
    ++ templateNums text.median_price_t [d.summary.median_price]
    ++ templateNums text.avg_size_t [d.summary.average_size]
    ++ templateNums text.avg_psf_t [d.summary.average_price_per_sqft]
    ++ (d.averages.flatMap fun p => templateNums text.by_beds_line_t [p.1, p.2])
    ++ (d.top.flatMap fun r => templateNums text.top_line_t (topLineVals r))

/-- The formatted numeric content of a report, `none` when the report
itself fails. -/
def reportNumericStrings (text : LocaleStrings)
    (records : List RentalRecord) (top_limit : ℤ) : Option (List String) :=
  (reportData records top_limit).map (numericStringsWith text)

/-! ### Sample records (concrete inputs for evaluations) -/

/-- A concrete listing: $1000, 2 BR, 500 sqft. -/
def sample1 : RentalRecord :=
  ⟨1, 1000, 2, 1, 500, 5, 10, true, false, true, false⟩

/-- A concrete listing: $2000, 1 BR, 1000 sqft. -/
def sample2 : RentalRecord :=
  ⟨2, 2000, 1, 1, 1000, 3, 4, false, true, false, true⟩

/-- A concrete listing: $1000, 2 BR, 750 sqft (price tied with
`sample1`). -/
def sample3 : RentalRecord :=
  ⟨3, 1000, 2, 2, 750, 8, 20, true, true, false, false⟩

/-- A concrete listing with size 0. -/
def sample0 : RentalRecord :=
  ⟨4, 800, 1, 1, 0, 2, 7, false, false, false, false⟩

/-- A concrete listing: $30, 3 BR, 50 sqft (ratio 3/5). -/
def sample4 : RentalRecord :=
  ⟨5, 30, 3, 1, 50, 1, 1, false, false, false, false⟩

/-- A concrete listing: $10, 2 BR, 100 sqft (ratio 1/10). -/
def sample5 : RentalRecord :=
  ⟨6, 10, 2, 1, 100, 4, 2, true, false, false, true⟩

/-- Read a key's value list off an association list (first match), the
empty list when the key is absent. -/
def getGroup : List (ℚ × List ℚ) → ℚ → List ℚ
  | [], _ => []
  | (k, vs) :: rest, b => if k = b then vs else getGroup rest b

end Rental

namespace Rental

/-! ### Helper lemmas -/

lemma pyMean_of_ne_nil {l : List ℚ} (h : l ≠ []) :
    pyMean l = some (l.sum / (l.length : ℚ)) := by
  simp [pyMean, h]

lemma summarize_price_eq (records : List RentalRecord) (h : records ≠ []) :
    summarize_price records = some
      { count := records.length
        average_price := (records.map (fun r => r.price)).sum / (records.length : ℚ)
        median_price := _median (records.map (fun r => r.price))
        average_size := (records.map (fun r => (r.size : ℚ))).sum / (records.length : ℚ)
        average_price_per_sqft :=
          (records.map price_per_square_foot).sum / (records.length : ℚ) } := by
  have h1 : records.map (fun r => r.price) ≠ [] := by simpa using h
  have h2 : records.map (fun r => (r.size : ℚ)) ≠ [] := by simpa using h
  have h3 : records.map price_per_square_foot ≠ [] := by simpa using h
  simp [summarize_price, pyMean, h1, h2, h3]

lemma lookupLocale_of_unknown {lang : String} (h1 : lang ≠ "en")
    (h2 : lang ≠ "tr") : lookupLocale lang = enStrings := by
  have e1 : (lang == "en") = false := beq_eq_false_iff_ne.mpr h1
  have e2 : (lang == "tr") = false := beq_eq_false_iff_ne.mpr h2
  simp [lookupLocale, localeTable, List.lookup, e1, e2]

lemma numericStringsWith_locale_eq (d : ReportData) :
    numericStringsWith enStrings d = numericStringsWith trStrings d := rfl

lemma dropWhile_append_of_forall {p : Char → Bool} :
    ∀ (a b : List Char), (∀ c ∈ a, p c) → (a ++ b).dropWhile p = b.dropWhile p := by
  intro a
  induction a with
  | nil => intro b _; rfl
  | cons x xs ih =>
      intro b h
      have hx : p x = true := h x (by simp)
      simp only [List.cons_append, List.dropWhile_cons, hx, if_true]
      exact ih b (fun c hc => h c (by simp [hc]))

lemma stripChars_eq_one_iff (l : List Char) :
    ((l.dropWhile Char.isWhitespace).reverse.dropWhile Char.isWhitespace).reverse = ['1'] ↔
      ∃ pre post : List Char,
        l = pre ++ '1' :: post ∧
        (∀ c ∈ pre, c.isWhitespace) ∧ (∀ c ∈ post, c.isWhitespace) := by
  constructor
  · intro h
    have h1 : (l.dropWhile Char.isWhitespace).reverse.dropWhile Char.isWhitespace = ['1'] := by
      have := congrArg List.reverse h
      simpa using this
    have h2 : ((l.dropWhile Char.isWhitespace).reverse.takeWhile Char.isWhitespace) ++ ['1'] =
        (l.dropWhile Char.isWhitespace).reverse := by
      conv_rhs => rw [← List.takeWhile_append_dropWhile Char.isWhitespace
        (l.dropWhile Char.isWhitespace).reverse]
      rw [h1]
    have h3 : l.dropWhile Char.isWhitespace =
        '1' :: ((l.dropWhile Char.isWhitespace).reverse.takeWhile Char.isWhitespace).reverse := by
      have := congrArg List.reverse h2
      simpa using this.symm
    have key : l = l.takeWhile Char.isWhitespace ++ l.dropWhile Char.isWhitespace :=
      (List.takeWhile_append_dropWhile _ _).symm
    refine ⟨l.takeWhile Char.isWhitespace,
      ((l.dropWhile Char.isWhitespace).reverse.takeWhile Char.isWhitespace).reverse,
      key.trans (congrArg (l.takeWhile Char.isWhitespace ++ ·) h3), ?_, ?_⟩
    · intro c hc
      exact List.mem_takeWhile_imp hc
    · intro c hc
      exact List.mem_takeWhile_imp (by simpa using hc)
  · rintro ⟨pre, post, rfl, hpre, hpost⟩
    have hone : Char.isWhitespace '1' = false := by decide
    have hd1 : List.dropWhile Char.isWhitespace ('1' :: post) = '1' :: post := by
      rw [List.dropWhile_cons, hone]
      simp
    have hd2 : List.dropWhile Char.isWhitespace ['1'] = ['1'] := by
      rw [List.dropWhile_cons, hone]
      simp
    rw [dropWhile_append_of_forall pre ('1' :: post) hpre, hd1, List.reverse_cons,
      dropWhile_append_of_forall post.reverse ['1'] (by simpa using hpost), hd2]
    simp

lemma reportData_some (records : List RentalRecord) (top_limit : ℤ)
    (h : records ≠ []) : ∃ d, reportData records top_limit = some d := by
  obtain ⟨s, hs⟩ : ∃ s, summarize_price records = some s :=
    ⟨_, summarize_price_eq records h⟩
  refine ⟨{ summary := s
            averages := average_price_by_bedrooms records
            top := top_listings records top_limit }, ?_⟩
  simp [reportData, hs]

lemma keys_setdefaultAppend (m : List (ℚ × List ℚ)) (k v : ℚ) :
    (setdefaultAppend m k v).map Prod.fst =
      if k ∈ m.map Prod.fst then m.map Prod.fst
      else m.map Prod.fst ++ [k] := by
  induction m with
  | nil => simp [setdefaultAppend]
  | cons p rest ih =>
      obtain ⟨k', vs⟩ := p
      by_cases h : k' = k
      · subst h
        simp [setdefaultAppend]
      · simp only [setdefaultAppend, if_neg h, List.map_cons, ih]
        by_cases hm : k ∈ rest.map Prod.fst
        · simp [hm, Ne.symm h]
        · simp [hm, Ne.symm h]

lemma getGroup_setdefaultAppend (m : List (ℚ × List ℚ)) (k v b : ℚ) :
    getGroup (setdefaultAppend m k v) b =
      if k = b then getGroup m b ++ [v] else getGroup m b := by
  induction m with
  | nil =>
      by_cases h : k = b <;> simp [setdefaultAppend, getGroup, h]
  | cons p rest ih =>
      obtain ⟨k', vs⟩ := p
      by_cases h : k' = k
      · subst h
        by_cases hb : k' = b
        · subst hb
          simp [setdefaultAppend, getGroup]
        · simp [setdefaultAppend, getGroup, hb]
      · by_cases hb : k' = b
        · subst hb
          have hkb : ¬(k = k') := fun he => h he.symm
          simp [setdefaultAppend, if_neg h, getGroup, hkb]
        · simp [setdefaultAppend, if_neg h, getGroup, hb, ih]

lemma getGroup_foldl (records : List RentalRecord) :
    ∀ (m : List (ℚ × List ℚ)) (b : ℚ),
      getGroup (records.foldl
          (fun m r => setdefaultAppend m r.bedrooms r.price) m) b =
        getGroup m b ++
          (records.filter (fun r => decide (r.bedrooms = b))).map
            (fun r => r.price) := by
  induction records with
  | nil => intro m b; simp
  | cons r rest ih =>
      intro m b
      rw [List.foldl_cons, ih]
      rw [getGroup_setdefaultAppend]
      by_cases h : r.bedrooms = b
      · simp [List.filter_cons, h]
      · simp [List.filter_cons, h]

lemma keys_foldl_nodup (records : List RentalRecord) :
    ∀ m : List (ℚ × List ℚ), (m.map Prod.fst).Nodup →
      ((records.foldl
          (fun m r => setdefaultAppend m r.bedrooms r.price) m).map
        Prod.fst).Nodup := by
  induction records with
  | nil => intro m hm; simpa using hm
  | cons r rest ih =>
      intro m hm
      rw [List.foldl_cons]
      apply ih
      rw [keys_setdefaultAppend]
      by_cases h : r.bedrooms ∈ m.map Prod.fst
      · simpa [h] using hm
      · rw [if_neg h, List.nodup_append]
        refine ⟨hm, List.nodup_singleton _, ?_⟩
        intro a ha hb
        rw [List.mem_singleton] at hb
        exact h (hb ▸ ha)

lemma mem_keys_foldl (records : List RentalRecord) :
    ∀ (m : List (ℚ × List ℚ)) (b : ℚ),
      b ∈ (records.foldl
          (fun m r => setdefaultAppend m r.bedrooms r.price) m).map Prod.fst ↔
        b ∈ m.map Prod.fst ∨ b ∈ records.map (fun r => r.bedrooms) := by
  induction records with
  | nil => intro m b; simp
  | cons r rest ih =>
      intro m b
      rw [List.foldl_cons, ih, keys_setdefaultAppend]
      by_cases h : r.bedrooms ∈ m.map Prod.fst
      · rw [if_pos h]
        simp only [List.map_cons, List.mem_cons]
        constructor
        · tauto
        · rintro (hb | hb | hb)
          · tauto
          · subst hb
            tauto
          · tauto
      · rw [if_neg h]
        simp only [List.map_cons, List.mem_cons, List.mem_append,
          List.mem_singleton]
        tauto

lemma getGroup_of_mem :
    ∀ (m : List (ℚ × List ℚ)) (b : ℚ) (vs : List ℚ),
      (m.map Prod.fst).Nodup → (b, vs) ∈ m → getGroup m b = vs := by
  intro m
  induction m with
  | nil =>
      intro b vs _ h
      simp at h
  | cons p rest ih =>
      intro b vs hnd hmem
      obtain ⟨k', vs'⟩ := p
      rw [List.map_cons] at hnd
      have hnd2 := List.nodup_cons.mp hnd
      rcases List.mem_cons.mp hmem with he | hm
      · obtain ⟨h1, h2⟩ := Prod.mk.inj he
        subst h1
        simp [getGroup, h2]
      · have hbmem : b ∈ rest.map Prod.fst :=
          List.mem_map.mpr ⟨(b, vs), hm, rfl⟩
        have hk : ¬(k' = b) := fun he => hnd2.1 (he ▸ hbmem)
        rw [getGroup, if_neg hk]
        exact ih b vs hnd2.2 hm

lemma sum_map_add (K : List ℚ) (f g : ℚ → ℕ) :
    (K.map (fun b => f b + g b)).sum = (K.map f).sum + (K.map g).sum := by
  induction K with
  | nil => simp
  | cons x xs ih => simp [ih]; omega

lemma sum_indicator_of_not_mem (a : ℚ) (K : List ℚ) (h : a ∉ K) :
    (K.map (fun b => if a = b then (1 : ℕ) else 0)).sum = 0 := by
  induction K with
  | nil => simp
  | cons x xs ih =>
      have hx : a ≠ x := fun he => h (he ▸ List.mem_cons_self x xs)
      have hxs : a ∉ xs := fun hm => h (List.mem_cons_of_mem x hm)
      simp [hx, ih hxs]

lemma sum_indicator_of_nodup (a : ℚ) (K : List ℚ) (hn : K.Nodup)
    (h : a ∈ K) :
    (K.map (fun b => if a = b then (1 : ℕ) else 0)).sum = 1 := by
  induction K with
  | nil => simp at h
  | cons x xs ih =>
      have hnd := List.nodup_cons.mp hn
      rcases List.mem_cons.mp h with he | hm
      · subst he
        simp [sum_indicator_of_not_mem a xs hnd.1]
      · have hx : a ≠ x := fun he => hnd.1 (he ▸ hm)
        simp [hx, ih hnd.2 hm]

lemma sum_filter_lengths (records : List RentalRecord) (K : List ℚ)
    (hn : K.Nodup) (hcov : ∀ r ∈ records, r.bedrooms ∈ K) :
    (K.map (fun b =>
      ((records.filter (fun r => decide (r.bedrooms = b))).length))).sum =
      records.length := by
  induction records with
  | nil => simp
  | cons r rest ih =>
      have hcov' : ∀ x ∈ rest, x.bedrooms ∈ K :=
        fun x hx => hcov x (List.mem_cons_of_mem r hx)
      have hsplit : ∀ b : ℚ,
          ((r :: rest).filter (fun x => decide (x.bedrooms = b))).length =
            (if r.bedrooms = b then 1 else 0) +
              ((rest.filter (fun x => decide (x.bedrooms = b))).length) := by
        intro b
        by_cases h : r.bedrooms = b
        · simp [List.filter_cons, h]
          omega
        · simp [List.filter_cons, h]
      rw [List.map_congr_left (fun b _ => hsplit b), sum_map_add,
        sum_indicator_of_nodup r.bedrooms K hn
          (hcov r (List.mem_cons_self r rest)),
        ih hcov']
      simp [Nat.add_comm]

end Rental

namespace Rental

/-! ### Claim theorems -/

/-- C5: for every record, `price_per_square_foot` equals `price / size`
when `size > 0` and is exactly `0` when `size = 0`; the division is
guarded and the function is total. -/
theorem price_per_square_foot_spec :
    ∀ r : RentalRecord,
      (0 < r.size → price_per_square_foot r = r.price / (r.size : ℚ)) ∧
      (r.size = 0 → price_per_square_foot r = 0) := by
  intro r
  constructor
  · intro h
    unfold price_per_square_foot
    rw [if_pos (show r.size ≠ 0 by omega)]
  · intro h
    unfold price_per_square_foot
    rw [if_neg (by simp [h])]

/-- Witness for C5: evaluation at `sample1` (size 500) and `sample0`
(size 0). -/
theorem price_per_square_foot_spec_witness :
    price_per_square_foot sample1 = sample1.price / (sample1.size : ℚ) ∧
    price_per_square_foot sample0 = 0 :=
  ⟨(price_per_square_foot_spec sample1).1 (by decide),
   (price_per_square_foot_spec sample0).2 rfl⟩

/-- C9: on the empty record list, `summarize_price` fails (the mean of
an empty price list raises), hence `format_report` fails for every
language and limit, even though `_median` alone would return `0`. -/
theorem summarize_price_empty_error :
    summarize_price [] = none ∧
    (∀ (language : String) (top_limit : ℤ),
      format_report [] language top_limit = none) ∧
    _median [] = 0 := by
  refine ⟨rfl, ?_, rfl⟩
  intro lang limit
  simp [format_report, reportData, summarize_price, pyMean]

/-- C4: on a nonempty record list, `summarize_price` returns the count,
the mean price, the median price, the mean size, and — for price per
unit area — the mean of the per-record `price/size` ratios; moreover
the mean-of-ratios value differs in general from total price over total
size. -/
theorem summarize_price_spec :
    (∀ records : List RentalRecord, records ≠ [] →
      summarize_price records = some
        { count := records.length
          average_price := (records.map (fun r => r.price)).sum / (records.length : ℚ)
          median_price := _median (records.map (fun r => r.price))
          average_size := (records.map (fun r => (r.size : ℚ))).sum / (records.length : ℚ)
          average_price_per_sqft :=
            (records.map price_per_square_foot).sum / (records.length : ℚ) }) ∧
    (∃ rs : List RentalRecord, rs ≠ [] ∧
      (summarize_price rs).map SummaryStats.average_price_per_sqft ≠
        some ((rs.map (fun r => r.price)).sum /
          (rs.map (fun r => (r.size : ℚ))).sum)) := by
  constructor
  · exact summarize_price_eq
  · refine ⟨[sample4, sample5], by decide, ?_⟩
    rw [summarize_price_eq [sample4, sample5] (by decide)]
    simp [sample4, sample5, price_per_square_foot]
    norm_num

/-- Witness for C4: evaluation at the one-element list `[sample1]`. -/
theorem summarize_price_spec_witness :
    summarize_price [sample1] = some ⟨1, 1000, 1000, 500, 2⟩ :=
  (summarize_price_spec.1 [sample1] (by decide)).trans (by
    simp [sample1, _median, pySortAsc, pyMean, pySliceRange, price_per_square_foot]
    norm_num)

/-- Counterexample for C6 as stated: the parser strips surrounding
whitespace, so `" 1"` parses to `true` although it is not the literal
`"1"`. -/
theorem parse_bool_literal_counterexample :
    _parse_bool " 1" = true ∧ (" 1" : String) ≠ "1" := by decide

/-- C6 amended: the boolean-flag parser returns `true` exactly when the
value is the character `'1'` surrounded only by (possibly no)
whitespace; it returns `false` for anything else, including an empty or
blank value. -/
theorem parse_bool_spec_amended :
    ∀ value : String,
      _parse_bool value = true ↔
        ∃ pre post : List Char,
          value.data = pre ++ '1' :: post ∧
          (∀ c ∈ pre, c.isWhitespace) ∧ (∀ c ∈ post, c.isWhitespace) := by
  intro value
  unfold _parse_bool pyStrip
  rw [beq_iff_eq, String.ext_iff]
  exact stripChars_eq_one_iff value.data

/-- Witness for the amended C6: `" 1 "` parses to `true`. -/
theorem parse_bool_spec_amended_witness : _parse_bool " 1 " = true :=
  (parse_bool_spec_amended " 1 ").mpr ⟨[' '], [' '], rfl, by decide, by decide⟩

/-- C7: an unrecognized language code falls back to the primary
("en") locale's templates and produces the report without error; the
recognized alternate code "tr" selects the Turkish templates. -/
theorem format_report_fallback :
    ∀ (records : List RentalRecord) (language : String) (top_limit : ℤ),
      language ≠ "en" → language ≠ "tr" →
      (lookupLocale language = enStrings ∧
       format_report records language top_limit =
         format_report records "en" top_limit ∧
       (records ≠ [] →
         ∃ s, format_report records language top_limit = some s)) ∧
      lookupLocale "tr" = trStrings := by
  intro records lang limit h1 h2
  have hl : lookupLocale lang = enStrings := lookupLocale_of_unknown h1 h2
  refine ⟨⟨hl, ?_, ?_⟩, rfl⟩
  · unfold format_report
    rw [hl]
    rfl
  · intro hne
    obtain ⟨d, hd⟩ := reportData_some records limit hne
    exact ⟨renderWith enStrings d, by unfold format_report; rw [hl, hd]; rfl⟩

/-- Witness for C7: the unknown code "fr" on a nonempty record list
still yields a report. -/
theorem format_report_fallback_witness :
    ∃ s, format_report [sample1] "fr" 5 = some s :=
  (format_report_fallback [sample1] "fr" 5 (by decide) (by decide)).1.2.2
    (by decide)

/-- C8: for a fixed record list and limit, the "en" report and the "tr"
report interpolate identical formatted numeric strings (the numeric
payload is computed before and independently of the locale choice, and
both locales use the same format specifications), so the two reports
differ only in template text and labels. -/
theorem format_report_locale_agnostic :
    ∀ (records : List RentalRecord) (top_limit : ℤ),
      reportNumericStrings enStrings records top_limit =
        reportNumericStrings trStrings records top_limit ∧
      format_report records "en" top_limit =
        (reportData records top_limit).map (renderWith enStrings) ∧
      format_report records "tr" top_limit =
        (reportData records top_limit).map (renderWith trStrings) := by
  intro records limit
  refine ⟨?_, rfl, rfl⟩
  unfold reportNumericStrings
  cases reportData records limit with
  | none => rfl
  | some d => exact congrArg some (numericStringsWith_locale_eq d)

/-- C10: a negative limit `k` follows Python slice semantics: the
descending-by-price stable sort with its last `|k|` entries dropped,
hence exactly `max 0 (n - |k|)` records, still sorted descending. -/
theorem top_listings_negative_limit :
    ∀ (records : List RentalRecord) (k : ℤ), k < 0 →
      ((top_listings records k).length : ℤ) =
        max 0 ((records.length : ℤ) - (k.natAbs : ℤ)) ∧
      top_listings records k ++
          (records.insertionSort priceGe).drop (records.length - k.natAbs) =
        records.insertionSort priceGe ∧
      (top_listings records k).Sorted priceGe := by
  intro records k hk
  have htop : top_listings records k =
      (records.insertionSort priceGe).take (records.length - k.natAbs) := by
    simp [top_listings, pySliceTo, hk]
  refine ⟨?_, ?_, ?_⟩
  · rw [htop]
    simp only [List.length_take, List.length_insertionSort]
    omega
  · rw [htop]
    exact List.take_append_drop _ _
  · rw [htop]
    exact (List.sorted_insertionSort priceGe records).sublist
      (List.take_sublist _ _)

/-- Witness for C10: three records with limit `-1` keep
`max 0 (3 - 1) = 2` records. -/
theorem top_listings_negative_limit_witness :
    ((top_listings [sample1, sample2, sample3] (-1)).length : ℤ) =
      max 0 (([sample1, sample2, sample3].length : ℤ) -
        (((-1 : ℤ)).natAbs : ℤ)) :=
  (top_listings_negative_limit [sample1, sample2, sample3] (-1) (by decide)).1

end Rental

namespace Rental

/-- C1: for a nonnegative limit `k`, `top_listings` returns
`min k n` records, their prices are exactly the `k` largest prices of
the input (as the prefix of the descending-sorted price list), the
records are in descending price order, and among equal prices the
original relative input order is preserved (the equal-price records of
the result form a sublist of the equal-price records of the input). -/
theorem top_listings_spec :
    ∀ (records : List RentalRecord) (k : ℤ), 0 ≤ k →
      (top_listings records k).length = min k.toNat records.length ∧
      (top_listings records k).map (fun r => r.price) =
        kLargest (records.map (fun r => r.price)) k.toNat ∧
      (top_listings records k).Sorted priceGe ∧
      (∀ p : ℚ,
        List.Sublist
          ((top_listings records k).filter (fun r => decide (r.price = p)))
          (records.filter (fun r => decide (r.price = p)))) := by
  intro records k hk
  have htop : top_listings records k =
      (records.insertionSort priceGe).take k.toNat := by
    simp [top_listings, pySliceTo, not_lt.mpr hk]
  have hfilter : ∀ p : ℚ,
      (records.insertionSort priceGe).filter (fun r => decide (r.price = p)) =
        records.filter (fun r => decide (r.price = p)) := by
    intro p
    have hmemc : ∀ r ∈ records.filter (fun r => decide (r.price = p)),
        r.price = p := by
      intro r hr
      have := List.of_mem_filter hr
      simpa using this
    have hpair : (records.filter (fun r => decide (r.price = p))).Pairwise
        priceGe := by
      apply List.pairwise_of_forall_mem_list
      intro a ha b hb
      unfold priceGe
      rw [hmemc a ha, hmemc b hb]
    have hsub : List.Sublist (records.filter (fun r => decide (r.price = p)))
        (records.insertionSort priceGe) :=
      List.sublist_insertionSort hpair (List.filter_sublist records)
    have hsub2 : List.Sublist
        (records.filter (fun r => decide (r.price = p)))
        ((records.insertionSort priceGe).filter
          (fun r => decide (r.price = p))) := by
      have h2 := hsub.filter (fun r => decide (r.price = p))
      have heq : (fun r : RentalRecord =>
          (decide (r.price = p) && decide (r.price = p))) =
            fun r : RentalRecord => decide (r.price = p) := by
        funext r
        simp only [Bool.and_self]
      rwa [List.filter_filter, heq] at h2
    have hperm : ((records.insertionSort priceGe).filter
        (fun r => decide (r.price = p))).Perm
          (records.filter (fun r => decide (r.price = p))) :=
      (List.perm_insertionSort priceGe records).filter _
    exact (hsub2.eq_of_length hperm.length_eq.symm).symm
  refine ⟨?_, ?_, ?_, ?_⟩
  · rw [htop]
    simp [List.length_take]
  · rw [htop, List.map_take]
    unfold kLargest
    congr 1
    exact List.map_insertionSort priceGe qGe (fun r => r.price) records
      (fun a _ b _ => Iff.rfl)
  · rw [htop]
    exact (List.sorted_insertionSort priceGe records).sublist
      (List.take_sublist _ _)
  · intro p
    rw [htop, ← hfilter p]
    exact (List.take_sublist _ _).filter _

/-- Witness for C1: three records (two tied at price 1000) with
limit 2. -/
theorem top_listings_spec_witness :
    (top_listings [sample1, sample2, sample3] 2).length =
      min (2 : ℤ).toNat [sample1, sample2, sample3].length ∧
    List.Sublist
      ((top_listings [sample1, sample2, sample3] 2).filter
        (fun r => decide (r.price = 1000)))
      ([sample1, sample2, sample3].filter
        (fun r => decide (r.price = 1000))) :=
  ⟨(top_listings_spec [sample1, sample2, sample3] 2 (by decide)).1,
   (top_listings_spec [sample1, sample2, sample3] 2 (by decide)).2.2.2 1000⟩

end Rental

namespace Rental

/-- C2: `_median` returns 0 on the empty list; on any list whose sorted
permutation is `s`, it returns the middle element of `s` for odd length
and the mean of the two central elements of `s` for even length. -/
theorem median_spec :
    ∀ (values s : List ℚ), s.Perm values → s.Sorted (· ≤ ·) →
      (values = [] → _median values = 0) ∧
      (values.length % 2 = 1 →
        _median values = s.getD (values.length / 2) 0) ∧
      (values ≠ [] → values.length % 2 = 0 →
        _median values =
          (s.getD (values.length / 2 - 1) 0 + s.getD (values.length / 2) 0) / 2) := by
  intro values s hperm hsorted
  have hs : pySortAsc values = s := by
    apply List.eq_of_perm_of_sorted
      ((List.perm_insertionSort _ values).trans hperm.symm)
      (List.sorted_insertionSort _ values) hsorted
  have hlen : s.length = values.length := hperm.length_eq
  refine ⟨?_, ?_, ?_⟩
  · intro h
    simp [_median, h]
  · intro hodd
    have hne : values ≠ [] := by
      intro h
      rw [h] at hodd
      simp at hodd
    unfold _median
    rw [if_neg hne, hs]
    simp only [hlen]
    rw [if_pos hodd]
  · intro hne heven
    have hlen2 : 2 ≤ values.length := by
      have : values.length ≠ 0 := by
        simpa using (List.length_pos.mpr hne).ne'
      omega
    unfold _median
    rw [if_neg hne, hs]
    simp only [hlen]
    rw [if_neg (by omega)]
    -- now the slice
    set mid := values.length / 2 with hmid
    have hm1 : mid - 1 < s.length := by omega
    have hm2 : mid < s.length := by omega
    have hdrop1 : s.drop (mid - 1) = s[mid - 1] :: s.drop (mid - 1 + 1) :=
      List.drop_eq_getElem_cons hm1
    have hdrop2 : s.drop mid = s[mid] :: s.drop (mid + 1) :=
      List.drop_eq_getElem_cons hm2
    have hmm : mid - 1 + 1 = mid := by omega
    rw [hmm] at hdrop1
    have hslice : pySliceRange s (mid - 1) (mid + 1) = [s[mid - 1], s[mid]] := by
      unfold pySliceRange
      rw [hdrop1, hdrop2]
      have h2 : mid + 1 - (mid - 1) = 2 := by omega
      rw [h2]
      rfl
    rw [hslice]
    have hp : pyMean [s[mid - 1], s[mid]] = some ((s[mid - 1] + s[mid]) / 2) := by
      simp [pyMean]
    rw [hp]
    simp only [Option.getD_some]
    rw [List.getD_eq_getElem s 0 hm1, List.getD_eq_getElem s 0 hm2]

/-- Witness for C2: the even-length list `[3, 1, 2, 4]` with sorted
permutation `[1, 2, 3, 4]` has median `(2 + 3) / 2`. -/
theorem median_spec_witness :
    _median [3, 1, 2, 4] =
      (([1, 2, 3, 4] : List ℚ).getD ([3, 1, 2, 4].length / 2 - 1) 0 +
        ([1, 2, 3, 4] : List ℚ).getD ([3, 1, 2, 4].length / 2) 0) / 2 :=
  (median_spec [3, 1, 2, 4] [1, 2, 3, 4] (by decide) (by decide)).2.2
    (by decide) (by decide)

end Rental


namespace Rental

/-- C3: the groups of `average_price_by_bedrooms` partition the input —
keys are strictly ascending, a key occurs exactly when some record has
exactly that bedroom count, each key maps to the arithmetic mean price
of the records with that exact bedroom count, and the group sizes sum
to the total record count. -/
theorem average_price_by_bedrooms_spec :
    ∀ records : List RentalRecord,
      (((average_price_by_bedrooms records).map Prod.fst).Pairwise (· < ·)) ∧
      (∀ b : ℚ, b ∈ (average_price_by_bedrooms records).map Prod.fst ↔
        b ∈ records.map (fun r => r.bedrooms)) ∧
      (∀ b m, (b, m) ∈ average_price_by_bedrooms records →
        m = ((records.filter (fun r => decide (r.bedrooms = b))).map
              (fun r => r.price)).sum /
            (((records.filter (fun r => decide (r.bedrooms = b))).length : ℚ))) ∧
      ((((average_price_by_bedrooms records).map Prod.fst).map
          (fun b =>
            (records.filter (fun r => decide (r.bedrooms = b))).length)).sum =
        records.length) := by
  intro records
  have hGnodup : ((grouped records).map Prod.fst).Nodup :=
    keys_foldl_nodup records [] (by simp)
  have hGmem : ∀ b, b ∈ (grouped records).map Prod.fst ↔
      b ∈ records.map (fun r => r.bedrooms) := by
    intro b
    have h := mem_keys_foldl records [] b
    simpa [grouped] using h
  have hSperm : ((grouped records).insertionSort fstLe).Perm
      (grouped records) := List.perm_insertionSort _ _
  have hSkeysperm : ((((grouped records).insertionSort fstLe)).map
      Prod.fst).Perm ((grouped records).map Prod.fst) := hSperm.map _
  have hSnodup : ((((grouped records).insertionSort fstLe)).map
      Prod.fst).Nodup := hSkeysperm.nodup_iff.mpr hGnodup
  have hSsorted : ((grouped records).insertionSort fstLe).Sorted fstLe :=
    List.sorted_insertionSort _ _
  have hRkeys : (average_price_by_bedrooms records).map Prod.fst =
      ((grouped records).insertionSort fstLe).map Prod.fst := by
    unfold average_price_by_bedrooms
    rw [List.map_map]
    rfl
  have hmemkeys : ∀ b : ℚ,
      b ∈ (average_price_by_bedrooms records).map Prod.fst ↔
        b ∈ records.map (fun r => r.bedrooms) := by
    intro b
    rw [hRkeys, hSkeysperm.mem_iff]
    exact hGmem b
  refine ⟨?_, hmemkeys, ?_, ?_⟩
  · rw [hRkeys]
    have hle : ((((grouped records).insertionSort fstLe)).map
        Prod.fst).Pairwise (· ≤ ·) :=
      hSsorted.map Prod.fst (fun a b h => h)
    exact (hle.and hSnodup).imp (fun h => lt_of_le_of_ne h.1 h.2)
  · intro b m hbm
    unfold average_price_by_bedrooms at hbm
    obtain ⟨p, hpS, hpe⟩ := List.mem_map.mp hbm
    obtain ⟨h1, h2⟩ := Prod.mk.inj hpe
    have hpG : p ∈ grouped records := hSperm.mem_iff.mp hpS
    have hval : getGroup (grouped records) p.1 = p.2 :=
      getGroup_of_mem (grouped records) p.1 p.2 hGnodup hpG
    have hcollect : getGroup (grouped records) p.1 =
        (records.filter (fun r => decide (r.bedrooms = p.1))).map
          (fun r => r.price) := by
      have h := getGroup_foldl records [] p.1
      simpa [grouped, getGroup] using h
    have hmemb : p.1 ∈ records.map (fun r => r.bedrooms) :=
      (hGmem p.1).mp (List.mem_map.mpr ⟨p, hpG, rfl⟩)
    obtain ⟨r0, hr0, hr0b⟩ := List.mem_map.mp hmemb
    have hfilne : records.filter (fun r => decide (r.bedrooms = p.1)) ≠ [] := by
      intro hnil
      have hr0f : r0 ∈ records.filter (fun r => decide (r.bedrooms = p.1)) :=
        List.mem_filter.mpr ⟨hr0, by simp [hr0b]⟩
      rw [hnil] at hr0f
      simp at hr0f
    have hmapne : (records.filter (fun r => decide (r.bedrooms = p.1))).map
        (fun r => r.price) ≠ [] := by simpa using hfilne
    subst h1
    rw [← h2]
    have hp2 : p.2 = (records.filter (fun r => decide (r.bedrooms = p.1))).map
        (fun r => r.price) := hval.symm.trans hcollect
    rw [hp2, pyMean_of_ne_nil hmapne]
    simp [List.length_map]
  · apply sum_filter_lengths
    · rw [hRkeys]
      exact hSnodup
    · intro r hr
      exact (hmemkeys r.bedrooms).mpr (List.mem_map.mpr ⟨r, hr, rfl⟩)

/-- Witness for C3: three records with bedroom counts 2, 1, 2. -/
theorem average_price_by_bedrooms_spec_witness :
    (((average_price_by_bedrooms [sample1, sample2, sample3]).map
        Prod.fst).Pairwise (· < ·)) ∧
    ((((average_price_by_bedrooms [sample1, sample2, sample3]).map
        Prod.fst).map
        (fun b => ([sample1, sample2, sample3].filter
          (fun r => decide (r.bedrooms = b))).length)).sum =
      [sample1, sample2, sample3].length) :=
  ⟨(average_price_by_bedrooms_spec [sample1, sample2, sample3]).1,
   (average_price_by_bedrooms_spec [sample1, sample2, sample3]).2.2.2⟩

end Rental
